import Mathlib

/-!
Verification of the tool-calling orchestration core of the Ai-Systems
repository (module `ai_gguf`), shallowly embedded in Lean 4.

The embedding follows the C++/Kotlin sources:
  * `src/tool_calling/tool_call_state.{h,cpp}` — streaming tool-call detector;
  * `src/state/model_state.{h,cpp}`            — sampler chains and grammar cache;
  * `src/chat/chat_template.cpp`               — GBNF synthesis and catalog
    normalisation;
  * `src/ai_gguf.cpp`                          — the streaming generation loop;
  * `toolcalling/ToolCallManager.kt`           — the multi-turn orchestrator.

Byte buffers are modelled as `List Char`, C++ `int` depth counters as `Int`,
and `std::string::npos`-style failures as `Option`.
-/

namespace AiSystems

/-! ## Streaming tool-call detector (`ToolCallState`) -/

/-- Detector state: the private members of `ToolCallState`
(`tool_call_state.h`, lines 70-74; the early-detection flag
`likely_tool_call` is not touched by the `tool_call_state.cpp`
implementation of `accumulate` and is omitted). -/
structure ToolCallState where
  buf : List Char
  brace_depth : Int
  collecting : Bool
  deriving Repr, DecidableEq

/-- The freshly constructed detector. -/
def ToolCallState.init : ToolCallState := ⟨[], 0, false⟩

/-- `ToolCallState::reset` (`tool_call_state.h`, lines 55-61): clears the
buffer and zeroes the state. -/
def ToolCallState.reset (_s : ToolCallState) : ToolCallState := ⟨[], 0, false⟩

/-- One character of the loop body of `ToolCallState::accumulate`
(`tool_call_state.cpp`, lines 13-29).  Returns the updated state and
whether a complete JSON object was signalled at this character.  Note that
braces are counted unconditionally: there is no string-literal skip. -/
def accStep (s : ToolCallState) (c : Char) : ToolCallState × Bool :=
  if !s.collecting then
    if c = '{' then (⟨['{'], 1, true⟩, false) else (s, false)
  else
    let buf := s.buf ++ [c]
    if c = '{' then (⟨buf, s.brace_depth + 1, true⟩, false)
    else if c = '}' then
      (⟨buf, s.brace_depth - 1, true⟩, s.brace_depth - 1 == 0)
    else (⟨buf, s.brace_depth, true⟩, false)

/-- `ToolCallState::accumulate` (`tool_call_state.cpp`, lines 12-32):
processes the chunk character by character and returns `true` as soon as
the brace depth reaches zero, leaving the rest of the chunk unread. -/
def ToolCallState.accumulate (s : ToolCallState) : List Char → ToolCallState × Bool
  | [] => (s, false)
  | c :: cs =>
    let r := accStep s c
    if r.2 then (r.1, true) else r.1.accumulate cs

/-- Raw brace contribution of one character: `+1` for `'{'`, `-1` for `'}'`.
This is the quantity `accumulate` tracks; string literals are NOT skipped. -/
def braceDelta (c : Char) : Int :=
  if c = '{' then 1 else if c = '}' then -1 else 0

/-- Raw brace balance of a character list. -/
def braceBal : List Char → Int
  | [] => 0
  | c :: cs => braceDelta c + braceBal cs

/-- Chunked feeding of the detector, stopping at the first completion
signal (this is how the generation loop in `ai_gguf.cpp` consumes
`accumulate`: on `true` it extracts and then stops or resets). -/
def feedChunks (s : ToolCallState) : List (List Char) → ToolCallState × Bool
  | [] => (s, false)
  | ch :: rest =>
    let r := s.accumulate ch
    if r.2 then (r.1, true) else feedChunks r.1 rest

/-- Modelled from the spec (spec.md §4.4: "on `"`, enter a string-skip
sub-state that honours `\\` escapes until the matching `"`, during which
braces are not counted"): one step of the string-skipping brace scanner.
State is (depth, inside-string, just-saw-backslash). -/
def specStep : Int × Bool × Bool → Char → Int × Bool × Bool
  | (d, false, _), c =>
    if c = '{' then (d + 1, false, false)
    else if c = '}' then (d - 1, false, false)
    else if c = '"' then (d, true, false)
    else (d, false, false)
  | (d, true, esc), c =>
    if esc then (d, true, false)
    else if c = '\\' then (d, true, true)
    else if c = '"' then (d, false, false)
    else (d, true, false)

/-- Modelled from the spec: after the opening brace, the string-skipping
depth first returns to zero exactly at the end of the list. -/
def specObjectAux : Int × Bool × Bool → List Char → Bool
  | _, [] => false
  | st, c :: cs =>
    let st2 := specStep st c
    if st2.1 == 0 && !st2.2.1 then cs.isEmpty else specObjectAux st2 cs

/-- Modelled from the spec: `l` is one complete top-level JSON object
starting at its first character, with braces inside string literals not
counted. -/
def specIsObject : List Char → Bool
  | '{' :: rest => specObjectAux (1, false, false) rest
  | _ => false

/-! ## Detector state invariant (C7) -/

/-- The detector invariant stated by the spec: collecting forces a positive
depth, idle forces an empty buffer at depth zero. -/
def detInv (s : ToolCallState) : Prop :=
  (s.collecting = true → 1 ≤ s.brace_depth) ∧
  (s.collecting = false → s.buf = [] ∧ s.brace_depth = 0)

/-- Protocol reachability: states obtainable from the fresh detector by
`accumulate` calls that did not signal completion, and by `reset` — which
is exactly how the generation loop in `ai_gguf.cpp` (lines 498-518) drives
the detector: whenever `accumulate` returns `true` it either stops the
turn or immediately calls `reset`. -/
inductive ProtoReach : ToolCallState → Prop
  | init : ProtoReach ToolCallState.init
  | step (s : ToolCallState) (l : List Char) : ProtoReach s →
      (s.accumulate l).2 = false → ProtoReach (s.accumulate l).1
  | reset (s : ToolCallState) : ProtoReach s → ProtoReach s.reset

/-- Unrestricted reachability: any sequence of `accumulate` calls and
`reset`s, as the claim literally quantifies. -/
inductive RawReach : ToolCallState → Prop
  | init : RawReach ToolCallState.init
  | step (s : ToolCallState) (l : List Char) : RawReach s →
      RawReach (s.accumulate l).1
  | reset (s : ToolCallState) : RawReach s → RawReach s.reset

/-! ## Tool-call extraction (C4) -/

/-- `std::string::find(pat)`: the first index at which `pat` occurs. -/
def strFind : List Char → List Char → Option Nat
  | [], pat => if pat.isPrefixOf [] then some 0 else none
  | c :: tl, pat =>
    if pat.isPrefixOf (c :: tl) then some 0
    else (strFind tl pat).map (· + 1)

/-- `find(pat) != std::string::npos`. -/
def containsSub (l pat : List Char) : Bool := (strFind l pat).isSome

/-- `std::string::find(c, start)`: first index `≥ start` holding `c`. -/
def findCharFrom (l : List Char) (c : Char) (start : Nat) : Option Nat :=
  ((l.drop start).findIdx? (· == c)).map (· + start)

/-- The literal key `"tool_calls"` (with quotes). -/
def keyToolCalls : List Char := "\"tool_calls\"".toList

/-- The literal key `"name"` (with quotes). -/
def keyName : List Char := "\"name\"".toList

/-- The literal key `"arguments"` (with quotes). -/
def keyArguments : List Char := "\"arguments\"".toList

/-- The name-reading scan of `ToolCallState::extract_tool_call`
(`tool_call_state.cpp`, lines 44-54): locate `"name"`, the colon after it,
and the next two quotes; read the characters between them.  Returns `[]`
when any find fails (the C++ leaves `name` empty). -/
def readName (buf : List Char) : List Char :=
  match strFind buf keyName with
  | none => []
  | some npos =>
    match findCharFrom buf ':' npos with
    | none => []
    | some colon =>
      match findCharFrom buf '"' (colon + 1) with
      | none => []
      | some q1 =>
        match findCharFrom buf '"' (q1 + 1) with
        | none => []
        | some q2 => (buf.drop (q1 + 1)).take (q2 - q1 - 1)

/-- The bare-call wrapper of line 59: `{"tool_calls":[` ++ buf ++ `]}`. -/
def wrapToolCalls (buf : List Char) : List Char :=
  "\x7b\"tool_calls\":[".toList ++ buf ++ "]\x7d".toList

/-- `ToolCallState::extract_tool_call` (`tool_call_state.cpp`, lines
34-64) on the accumulated buffer: `none` models returning `false`. -/
def extract_tool_call (buf : List Char) : Option (List Char × List Char) :=
  let has_wrapper := containsSub buf keyToolCalls
  let has_name := containsSub buf keyName
  let has_args := containsSub buf keyArguments
  if !has_wrapper && !(has_name && has_args) then none
  else
    let name0 := readName buf
    let name := if name0.isEmpty then "tool".toList else name0
    let payload :=
      if !has_wrapper && (has_name && has_args) then wrapToolCalls buf
      else buf
    some (name, payload)

/-! ## Streaming delivery order (C6) -/

/-- One iteration of the streaming block of the generation loop
(`ai_gguf.cpp`, lines 498-518) for one decoded chunk: feed the detector
when tools are enabled; on completion try extraction — success ends the
turn withholding the chunk, failure resets the detector — and finally the
chunk goes to the token sink iff the detector is not collecting.  Returns
(detector state, was the chunk forwarded, extracted tool call). -/
def chunkStep (toolsEnabled : Bool) (ts : ToolCallState) (c : List Char) :
    ToolCallState × Bool × Option (List Char × List Char) :=
  if c.isEmpty then (ts, false, none)
  else if toolsEnabled then
    let r := ts.accumulate c
    if r.2 then
      match extract_tool_call r.1.buf with
      | some e => (r.1, false, some e)
      | none => (r.1.reset, true, none)
    else (r.1, !r.1.collecting, none)
  else (ts, !ts.collecting, none)

/-- The whole per-turn routing loop: chunks are processed in decoder
order; a successful extraction breaks out of the loop.  Returns the list
of chunks delivered to the token sink and the tool-call event. -/
def routeChunks (toolsEnabled : Bool) (ts : ToolCallState) :
    List (List Char) → List (List Char) × Option (List Char × List Char)
  | [] => ([], none)
  | c :: rest =>
    let r := chunkStep toolsEnabled ts c
    match r.2.2 with
    | some e => ([], some e)
    | none =>
      let q := routeChunks toolsEnabled r.1 rest
      (if r.2.1 then c :: q.1 else q.1, q.2)

/-! ## Argument extraction (C10) -/

/-- Scanner mode for the brace-matching loop that skips quoted strings
(`tool_call_state.cpp`, lines 92-107): `plain` is the outer loop body,
`instr` is inside a double-quoted string, and `esc` is just after a
backslash inside a string (the next character is consumed
unconditionally, mirroring `if (buf[pos] == '\\') ++pos; ++pos;`). -/
inductive ScanMode
  | plain
  | instr
  | esc
  deriving DecidableEq, Repr

/-- The brace-counting loop of `ToolCallState::extract_arguments`
(`tool_call_state.cpp`, lines 90-107), entered after the opening brace at
depth 1; the C++ inner `while` that skips one quoted string corresponds
to the `instr`/`esc` modes of this character machine.  Returns the final
depth, the characters consumed, and the unread rest; the loop stops when
the depth reaches zero or the buffer ends. -/
def braceScan : Int → ScanMode → List Char → Int × List Char × List Char
  | d, _, [] => (d, [], [])
  | d, m, c :: cs =>
    if 0 < d then
      match m with
      | ScanMode.plain =>
        if c = '"' then
          let r := braceScan d ScanMode.instr cs
          (r.1, c :: r.2.1, r.2.2)
        else if c = '{' then
          let r := braceScan (d + 1) ScanMode.plain cs
          (r.1, c :: r.2.1, r.2.2)
        else if c = '}' then
          let r := braceScan (d - 1) ScanMode.plain cs
          (r.1, c :: r.2.1, r.2.2)
        else
          let r := braceScan d ScanMode.plain cs
          (r.1, c :: r.2.1, r.2.2)
      | ScanMode.instr =>
        if c = '"' then
          let r := braceScan d ScanMode.plain cs
          (r.1, c :: r.2.1, r.2.2)
        else if c = '\\' then
          let r := braceScan d ScanMode.esc cs
          (r.1, c :: r.2.1, r.2.2)
        else
          let r := braceScan d ScanMode.instr cs
          (r.1, c :: r.2.1, r.2.2)
      | ScanMode.esc =>
        let r := braceScan d ScanMode.instr cs
        (r.1, c :: r.2.1, r.2.2)
    else (d, [], c :: cs)

/-- The whitespace test of `extract_arguments` (line 83). -/
def isJsonWs (c : Char) : Bool := c == ' ' || c == '\t' || c == '\n' || c == '\r'

/-- The object-start search of `extract_arguments` (lines 80-87): skip
whitespace; `'{'` starts the object; anything else fails. -/
def dropWsToObj : List Char → Option (List Char)
  | [] => none
  | c :: cs =>
    if isJsonWs c then dropWsToObj cs
    else if c = '{' then some (c :: cs) else none

/-- `ToolCallState::extract_arguments` (`tool_call_state.cpp`, lines
70-114): find the `"arguments"` key, the first colon from 11 characters
past it, the `'{'` after whitespace, then brace-match with quoted strings
skipped; `none` models returning `false`. -/
def extract_arguments (buf : List Char) : Option (List Char) :=
  match strFind buf keyArguments with
  | none => none
  | some apos =>
    match (buf.drop (apos + 11)).dropWhile (fun c => c != ':') with
    | [] => none
    | _ :: afterColon =>
      match dropWsToObj afterColon with
      | none => none
      | some [] => none
      | some (_ :: afterBrace) =>
        let r := braceScan 1 ScanMode.plain afterBrace
        if r.1 = 0 then some ('{' :: r.2.1) else none

/-! ## Sampler-chain composition and grammar ownership (C2) -/

/-- A stage added to a llama sampler chain by `ModelState::rebuild_sampler`
(`model_state.cpp`, lines 33-120).  Grammar stages carry the handle of the
sampler object they own; `llama_sampler_chain_add` transfers ownership of
the added stage to the chain. -/
inductive Stage
  | grammar (h : Nat)
  | mirostat
  | topKStage
  | topPStage
  | minPStage
  | tempStage
  | dist
  | greedy
  deriving DecidableEq, Repr

/-- Sampling parameters (`SamplerParams`, `model_state.h`, lines 43-52);
the C++ floats are modelled as rationals. -/
structure SamplerParams where
  topK : Int
  topP : ℚ
  temp : ℚ
  minP : ℚ
  mirostat : Int
  mirostatTau : ℚ
  mirostatEta : ℚ
  seed : Int
  deriving DecidableEq, Repr

/-- The non-mirostat branch of `rebuild_sampler` (`model_state.cpp`, lines
87-110): temperature (iff positive and farther than `1e-3` from 1), top-k,
top-p (iff below 1), min-p (iff positive), then dist or greedy. -/
def standardStages (p : SamplerParams) : List Stage :=
  (if 0 < p.temp ∧ 1 / 1000 < |p.temp - 1| then [Stage.tempStage] else []) ++
  [Stage.topKStage] ++
  (if p.topP < 1 then [Stage.topPStage] else []) ++
  (if 0 < p.minP then [Stage.minPStage] else []) ++
  (if 0 < p.temp then [Stage.dist] else [Stage.greedy])

/-- `ModelState::rebuild_sampler` (`model_state.cpp`, lines 33-120) as the
list of stages added to the freshly initialised chain, in order.
`grammar` is the canonical grammar sampler handle owned by the model
state (if any); `clone` models `llama_sampler_clone` and `cloneOk`
whether it succeeded.  Only `clone g` is ever added — never `g`. -/
def rebuild_sampler_chain (tools_enabled : Bool) (grammar : Option Nat)
    (clone : Nat → Nat) (cloneOk : Bool) (p : SamplerParams) : List Stage :=
  (match tools_enabled, grammar with
   | true, some g => if cloneOk then [Stage.grammar (clone g)] else []
   | _, _ => []) ++
  (if 0 < p.mirostat then [Stage.mirostat] else standardStages p)

/-- The grammar handles owned (and freed on chain destruction) by a chain:
`llama_sampler_free` on a chain frees every stage added to it. -/
def chainGrammarHandles (chain : List Stage) : List Nat :=
  chain.filterMap fun s =>
    match s with
    | Stage.grammar h => some h
    | _ => none

/-- `ModelState::release` (`model_state.cpp`, lines 303-311): the canonical
grammar handle is freed by the model state itself, and the current chain
is freed, freeing the stages the chain owns. -/
def releaseFrees (grammar : Option Nat) (chain : List Stage) : List Nat :=
  grammar.toList ++ chainGrammarHandles chain

/-! ## Grammar caching (C5) -/

/-- The grammar-related fields of `ModelState` (`model_state.h`, lines
72-87). -/
structure GrammarState where
  tools_enabled : Bool
  tools_json : String
  cached_tools_json : String
  grammar_needs_rebuild : Bool
  grammar_sampler : Option Nat
  deriving DecidableEq, Repr

/-- The environment `update_grammar_if_needed` runs against: the grammar
string builders of `chat_template.cpp`, the vocabulary lookup, and the
grammar compilers `llama_sampler_init_grammar` /
`llama_sampler_init_grammar_lazy_patterns` in the preferred and in the
alternate mode (abstract: `none` models a failed init). -/
structure GrammarEnv where
  use_typed_grammar : Bool
  buildTyped : String → String
  buildGeneric : String → String
  vocabOk : Bool
  tryPreferred : String → Option Nat
  tryAlt : String → Option Nat

/-- Result of one `update_grammar_if_needed` call: the new state, the
handles freed during the call, and whether the rebuild path was entered. -/
structure UpdateResult where
  state : GrammarState
  freed : List Nat
  rebuilt : Bool

/-- `ModelState::update_grammar_if_needed` (`model_state.cpp`, lines
436-575): early return when tools are off or the catalog is empty; reuse
when nothing changed; otherwise free the old grammar, build the grammar
strings, and try typed+preferred, generic+preferred, typed+alternate,
generic+alternate in that order — recording the catalog text in the cache
regardless of success. -/
def update_grammar_if_needed (env : GrammarEnv) (s : GrammarState) : UpdateResult :=
  if ¬s.tools_enabled ∨ s.tools_json = "" then
    { state :=
        { s with
          grammar_sampler := none
          grammar_needs_rebuild := false
          cached_tools_json := "" }
      freed := s.grammar_sampler.toList
      rebuilt := false }
  else if ¬s.grammar_needs_rebuild ∧ s.tools_json = s.cached_tools_json then
    { state := s, freed := [], rebuilt := false }
  else
    let freed := s.grammar_sampler.toList
    let typed := if env.use_typed_grammar then env.buildTyped s.tools_json else ""
    let generic := env.buildGeneric s.tools_json
    if typed = "" ∧ generic = "" then
      { state :=
          { s with
            grammar_sampler := none
            cached_tools_json := s.tools_json
            grammar_needs_rebuild := false }
        freed := freed
        rebuilt := true }
    else if ¬env.vocabOk then
      { state :=
          { s with
            grammar_sampler := none
            cached_tools_json := s.tools_json
            grammar_needs_rebuild := false }
        freed := freed
        rebuilt := true }
    else
      let gs :=
        ((if typed ≠ "" then env.tryPreferred typed else none).orElse fun _ =>
         (if generic ≠ "" then env.tryPreferred generic else none).orElse fun _ =>
         (if typed ≠ "" then env.tryAlt typed else none).orElse fun _ =>
         (if generic ≠ "" then env.tryAlt generic else none))
      { state :=
          { s with
            grammar_sampler := gs
            cached_tools_json := s.tools_json
            grammar_needs_rebuild := false }
        freed := freed
        rebuilt := true }

/-! ## Typed GBNF arguments rule (C3) -/

/-- A tool parameter as parsed by `chat::extract_tool_info`
(`chat_template.cpp`): name, declared type, enum alternatives. -/
structure ToolParamInfo where
  name : String
  type : String
  enum_values : List String
  deriving DecidableEq, Repr

/-- A parsed tool (`ToolInfo` in `chat_template.h`): name, parameters in
declaration order, required-parameter names. -/
structure ToolInfo where
  name : String
  params : List ToolParamInfo
  required : List String
  deriving DecidableEq, Repr

/-- The required/optional split of `build_tool_grammar_typed`
(`chat_template.cpp`, lines 496-504): one pass over the declared
parameters, so declaration order is preserved in both lists. -/
def splitParams (tool : ToolInfo) : List ToolParamInfo × List ToolParamInfo :=
  (tool.params.filter fun p => tool.required.contains p.name,
   tool.params.filter fun p => !tool.required.contains p.name)

/-- Terminal pieces of the `args_<tool>` GBNF rule. -/
inductive GTok
  | lbrace
  | rbrace
  | comma
  | wsp
  | kv (tool param : String)
  deriving DecidableEq, Repr

/-- The fragment of GBNF the `args` rule uses: terminals, juxtaposition
and `( ... )?` optional groups. -/
inductive GExpr
  | tok (t : GTok)
  | seq (a b : GExpr)
  | opt (a : GExpr)
  deriving DecidableEq, Repr

/-- The separator-plus-field group content `ws "," ws kv_<tool>_<p>`. -/
def sepKv (t p : String) : GExpr :=
  GExpr.seq (GExpr.tok GTok.wsp) (GExpr.seq (GExpr.tok GTok.comma)
    (GExpr.seq (GExpr.tok GTok.wsp) (GExpr.tok (GTok.kv t p))))

/-- Separator-joined continuation of the required block. -/
def reqTail (t : String) (q : String) : List String → GExpr
  | [] => sepKv t q
  | r :: rest => GExpr.seq (sepKv t q) (reqTail t r rest)

/-- The required block (`chat_template.cpp`, lines 512-516): all kv rules
in declaration order, comma-separated, nothing optional. -/
def reqExpr (t : String) (p : String) : List String → GExpr
  | [] => GExpr.tok (GTok.kv t p)
  | q :: rest => GExpr.seq (GExpr.tok (GTok.kv t p)) (reqTail t q rest)

/-- The nested optional groups that follow a required block or the first
optional field (lines 524-531 and 536-545): each further optional opens
`(ws "," ws kv_...` and all groups close with `)?` at the end, so the
comma sits inside the group, immediately before the included field. -/
def optTail (t : String) (q : String) : List String → GExpr
  | [] => sepKv t q
  | r :: rest => GExpr.seq (sepKv t q) (GExpr.opt (optTail t r rest))

/-- The all-optional chain (lines 520-532): `(kv_p0 (ws "," ws kv_p1 ...)?)?`
without its outermost group. -/
def optChain (t : String) (p : String) : List String → GExpr
  | [] => GExpr.tok (GTok.kv t p)
  | q :: rest => GExpr.seq (GExpr.tok (GTok.kv t p)) (GExpr.opt (optTail t q rest))

/-- The right-hand side of the `args_<tool>` rule (lines 506-550) as a
grammar expression: four cases exactly as in the source. -/
def argsBody (t : String) : List String → List String → GExpr
  | [], [] =>
    GExpr.seq (GExpr.tok GTok.lbrace)
      (GExpr.seq (GExpr.tok GTok.wsp) (GExpr.tok GTok.rbrace))
  | [], o :: os =>
    GExpr.seq (GExpr.tok GTok.lbrace) (GExpr.seq (GExpr.tok GTok.wsp)
      (GExpr.seq (GExpr.opt (optChain t o os))
        (GExpr.seq (GExpr.tok GTok.wsp) (GExpr.tok GTok.rbrace))))
  | r :: rs, [] =>
    GExpr.seq (GExpr.tok GTok.lbrace) (GExpr.seq (GExpr.tok GTok.wsp)
      (GExpr.seq (reqExpr t r rs)
        (GExpr.seq (GExpr.tok GTok.wsp) (GExpr.tok GTok.rbrace))))
  | r :: rs, o :: os =>
    GExpr.seq (GExpr.tok GTok.lbrace) (GExpr.seq (GExpr.tok GTok.wsp)
      (GExpr.seq (GExpr.seq (reqExpr t r rs) (GExpr.opt (optTail t o os)))
        (GExpr.seq (GExpr.tok GTok.wsp) (GExpr.tok GTok.rbrace))))

/-- The token strings an expression derives, as a list (finite: this GBNF
fragment has no repetition). -/
def langG : GExpr → List (List GTok)
  | GExpr.tok t => [[t]]
  | GExpr.seq a b => (langG a).flatMap fun x => (langG b).map fun y => x ++ y
  | GExpr.opt a => [] :: langG a

/-- The separator-plus-field token block for one parameter. -/
def sepToks (t : String) (q : String) : List GTok :=
  [GTok.wsp, GTok.comma, GTok.wsp, GTok.kv t q]

/-- kv tokens of a declaration-order parameter list, comma-separated. -/
def kvToks (t : String) : List String → List GTok
  | [] => []
  | p :: ps => GTok.kv t p :: ps.flatMap (sepToks t)

/-- A whole accepted `args` string: `{ ws <middle> ws }`. -/
def argsToks (mid : List GTok) : List GTok :=
  GTok.lbrace :: GTok.wsp :: (mid ++ [GTok.wsp, GTok.rbrace])

/-! Rendering the grammar expressions back to the exact GBNF text the
source emits. -/

/-- GBNF text of one terminal. -/
def renderTok : GTok → String
  | GTok.lbrace => "\"\x7b\""
  | GTok.rbrace => "\"\x7d\""
  | GTok.comma => "\",\""
  | GTok.wsp => "ws"
  | GTok.kv t p => "kv_" ++ t ++ "_" ++ p

/-- GBNF text of an expression: juxtaposition is space-separated, optional
groups are wrapped in `( ... )?`. -/
def renderG : GExpr → String
  | GExpr.tok t => renderTok t
  | GExpr.seq a b => renderG a ++ " " ++ renderG b
  | GExpr.opt a => "(" ++ renderG a ++ ")?"

/-- The kv-rule name `kv_<tool>_<param>` (`chat_template.cpp`, line 515). -/
def kvName (t p : String) : String := "kv_" ++ t ++ "_" ++ p

/-- The required-parameter loop (lines 513-516): every iteration after the
first appends the separator, then the kv name. -/
def reqLoopStr (t : String) : List String → String
  | [] => ""
  | q :: rest => " ws \",\" ws " ++ kvName t q ++ reqLoopStr t rest

/-- The required block as emitted: first kv, then the loop. -/
def reqPartStr (t : String) : List String → String
  | [] => ""
  | p :: ps => kvName t p ++ reqLoopStr t ps

/-- The group-opening loop over the remaining optionals (lines 524-527 and
538-541). -/
def optOpenStr (t : String) : List String → String
  | [] => ""
  | q :: rest => " (ws \",\" ws " ++ kvName t q ++ optOpenStr t rest

/-- The group-closing loop (lines 529-531 and 543-545): one `)?` per
remaining optional. -/
def optCloseStr : List String → String
  | [] => ""
  | _ :: rest => ")?" ++ optCloseStr rest

/-- The optional section as emitted (lines 518-547): nothing when there
are no optionals; `( kv ... )?` when everything is optional; a leading
`" (ws "," ws kv"` group otherwise. -/
def optPartStr (t : String) : List String → List String → String
  | _, [] => ""
  | [], o :: os => "(" ++ kvName t o ++ optOpenStr t os ++ optCloseStr os ++ ")?"
  | _ :: _, o :: os =>
    " (ws \",\" ws " ++ kvName t o ++ optOpenStr t os ++ optCloseStr os ++ ")?"

/-- The full `args_<tool> ::= ...` line of `build_tool_grammar_typed`
(`chat_template.cpp`, lines 506-550), translated `<<` by `<<`. -/
def args_rule_string (t : String) (req opt : List String) : String :=
  if req.isEmpty && opt.isEmpty then
    "args_" ++ t ++ " ::= \"\x7b\" ws \"\x7d\"\n"
  else
    "args_" ++ t ++ " ::= \"\x7b\" ws " ++ reqPartStr t req
      ++ optPartStr t req opt ++ " ws \"\x7d\"\n"

/-! ## Catalog normalisation (C8) -/

/-- The needle `"function"` (with quotes) searched by
`normalize_tools_json`. -/
def keyFunction : List Char := "\"function\"".toList

/-- The key test of `find_key_value` (`chat_template.cpp`, lines 217-231):
the needle must be followed, after whitespace, by a colon; the value
starts after the colon and more whitespace.  Returns the value suffix. -/
def keyValueAt (needle t : List Char) : Option (List Char) :=
  if needle.isPrefixOf t then
    match (t.drop needle.length).dropWhile isJsonWs with
    | ':' :: r => some (r.dropWhile isJsonWs)
    | _ => none
  else none

/-- `find_key_value` (`chat_template.cpp`, lines 217-231) over a suffix:
scan forward; at each needle occurrence check for the colon; after a
failed check resume `needle.length` characters on (C++ `pos +=
needle.size()`), tracked by the skip counter.  Returns the characters
before the value position and the suffix starting at the value. -/
def findKeyValue (needle : List Char) : Nat → List Char → Option (List Char × List Char)
  | _, [] => none
  | skip + 1, c :: cs =>
    (findKeyValue needle skip cs).map fun r => (c :: r.1, r.2)
  | 0, c :: cs =>
    match keyValueAt needle (c :: cs) with
    | some v => some ((c :: cs).take ((c :: cs).length - v.length), v)
    | none =>
      if needle.isPrefixOf (c :: cs) then
        (findKeyValue needle (needle.length - 1) cs).map fun r => (c :: r.1, r.2)
      else
        (findKeyValue needle 0 cs).map fun r => (c :: r.1, r.2)

/-- `find_matching_close` (`chat_template.cpp`, lines 190-212) for a value
starting with `'{'`: the same quoted-string-skipping scan, returning the
balanced object (braces included) and the rest. -/
def findMatchingCloseObj : List Char → Option (List Char × List Char)
  | '{' :: rest =>
    let r := braceScan 1 ScanMode.plain rest
    if r.1 = 0 then some ('{' :: r.2.1, r.2.2) else none
  | _ => none

/-- The rewrite loop of `normalize_tools_json` (`chat_template.cpp`, lines
609-657), over the unprocessed suffix.  `fuel` bounds the loop iterations;
each iteration consumes at least one character, so `length + 1` never
runs out.  A `"function"` value that is an object containing another
`"function"` object value strictly inside it is replaced by that inner
value; a value position at the very end of the string reads the C++
`operator[](size())` null character. -/
def normalizeLoop (needle : List Char) : Nat → List Char → List Char
  | 0, t => t
  | fuel + 1, t =>
    match findKeyValue needle 0 t with
    | none => t
    | some (pre, v) =>
      match v with
      | '{' :: _ =>
        match findMatchingCloseObj v with
        | none => t
        | some (outerObj, afterOuter) =>
          match findKeyValue needle 0 (v.drop 1) with
          | some (pre2, v2) =>
            if pre2.length + 2 < outerObj.length ∧ v2.headD ' ' = '{' then
              match findMatchingCloseObj v2 with
              | some (innerObj, _) =>
                if 1 + pre2.length + innerObj.length ≤ outerObj.length then
                  pre ++ innerObj ++ normalizeLoop needle fuel afterOuter
                else
                  pre ++ outerObj ++ normalizeLoop needle fuel afterOuter
              | none =>
                pre ++ outerObj ++ normalizeLoop needle fuel afterOuter
            else
              pre ++ outerObj ++ normalizeLoop needle fuel afterOuter
          | none =>
            pre ++ outerObj ++ normalizeLoop needle fuel afterOuter
      | c :: vrest => pre ++ [c] ++ normalizeLoop needle fuel vrest
      | [] => pre ++ ['\x00']

/-- The double-wrap trigger of the quick check (`chat_template.cpp`,
line 605). -/
def triggerPattern : List Char := "\"function\":\x7b\"type\":\"function\"".toList

/-- `chat::normalize_tools_json` (`chat_template.cpp`, lines 603-658). -/
def normalize_tools_json (s : List Char) : List Char :=
  if containsSub s triggerPattern then normalizeLoop keyFunction (s.length + 1) s
  else s

/-! ## Conversation orchestrator (C9)

`ToolCallManager.generateWithTools` (`part_007`, lines 384-457) drives the
multi-round loop.  The native generation call, the payload parser and the
tool executor are abstracted into an environment; one round of generation
is a function of the current message list. -/

/-- A Kotlin `ChatMessage(role, content)`. -/
structure ChatMessage where
  role : String
  content : String
deriving DecidableEq

/-- What one `nativeGenerateStreamMultiTurn` round reports through the
`StreamCallback`: a generation error, a detected tool call (name and raw
payload JSON), or plain text. -/
inductive RoundOutcome where
  | rerror (msg : String)
  | toolCall (name payload : String)
  | text (response : String)
deriving DecidableEq

/-- A parsed `ToolCall` (name plus arguments JSON). -/
structure ParsedCall where
  name : String
  args : String
deriving DecidableEq

/-- How `generateWithTools` ends: `onError` or `onDone`. -/
inductive OrchResult where
  | errored (msg : String)
  | done (response : String)
deriving DecidableEq

/-- The orchestrator's environment: the outcome of one generation round as
a function of the conversation so far, `parseToolCall`, and
`executor.execute` (`Except.error` models a thrown exception). -/
structure OrchEnv where
  round : List ChatMessage → RoundOutcome
  parse : String → Option ParsedCall
  execute : ParsedCall → Except String String

/-- The content of the appended `tool` message: `executor.execute` under
the orchestrator's `try`/`catch` (`part_007`, lines 433-437) — an
exception is caught and becomes an error-text `ToolResult`. -/
def toolResultContent (env : OrchEnv) (tc : ParsedCall) : String :=
  match env.execute tc with
  | Except.ok r => r
  | Except.error m => "Error: " ++ m

/-- The `for (round in 0 until config.maxRounds)` loop of
`generateWithTools` (`part_007`, lines 385-452), recursing on the rounds
remaining.  An executed tool round appends the assistant message carrying
the raw payload and the tool message carrying the executor's result, then
continues; an error, a parse failure, or a text response stop the loop;
exhausted rounds report the max-rounds error. -/
def generateLoop (env : OrchEnv) : Nat → List ChatMessage → List ChatMessage × OrchResult
  | 0, msgs => (msgs, OrchResult.errored "Maximum tool call rounds exceeded")
  | r + 1, msgs =>
    match env.round msgs with
    | RoundOutcome.rerror m => (msgs, OrchResult.errored m)
    | RoundOutcome.text t => (msgs, OrchResult.done t)
    | RoundOutcome.toolCall _ payload =>
      match env.parse payload with
      | none => (msgs, OrchResult.errored "Failed to parse tool call from model output")
      | some tc =>
        generateLoop env r
          (msgs ++ [ChatMessage.mk "assistant" payload,
                    ChatMessage.mk "tool" (toolResultContent env tc)])

/-- `generateWithTools` (`part_007`, lines 384-457): seed the conversation
with the system and user messages, then run the round loop. -/
def generateWithTools (env : OrchEnv) (maxRounds : Nat)
    (systemContent userMessage : String) : List ChatMessage × OrchResult :=
  generateLoop env maxRounds
    [ChatMessage.mk "system" systemContent, ChatMessage.mk "user" userMessage]

/-- The (payload, tool result) pairs of the rounds the loop actually
executes, in order. -/
def executedPairs (env : OrchEnv) : Nat → List ChatMessage → List (String × String)
  | 0, _ => []
  | r + 1, msgs =>
    match env.round msgs with
    | RoundOutcome.rerror _ => []
    | RoundOutcome.text _ => []
    | RoundOutcome.toolCall _ payload =>
      match env.parse payload with
      | none => []
      | some tc =>
        (payload, toolResultContent env tc) ::
          executedPairs env r
            (msgs ++ [ChatMessage.mk "assistant" payload,
                      ChatMessage.mk "tool" (toolResultContent env tc)])

/-- The two messages an executed round appends. -/
def roundMessages (p : String × String) : List ChatMessage :=
  [ChatMessage.mk "assistant" p.1, ChatMessage.mk "tool" p.2]

/-- An environment whose first two rounds call a tool and whose later
rounds answer in text. -/
def wOrchEnv : OrchEnv where
  round := fun msgs =>
    if msgs.length ≤ 4 then RoundOutcome.toolCall "t" "\x7b\"name\":\"t\"\x7d"
    else RoundOutcome.text "hi"
  parse := fun _ => some (ParsedCall.mk "t" "\x7b\x7d")
  execute := fun _ => Except.ok "42"

/-- An environment that answers in text immediately. -/
def wTextEnv : OrchEnv where
  round := fun _ => RoundOutcome.text "hi"
  parse := fun _ => none
  execute := fun tc => Except.ok tc.args

/-! ## Theorems -/

theorem braceBal_cons (c : Char) (cs : List Char) :
    braceBal (c :: cs) = braceDelta c + braceBal cs := rfl

/-- While collecting, if every proper prefix of `l` keeps the running depth
positive and the whole of `l` drives it to zero, then `accumulate` consumes
all of `l`, appends it to the buffer, and signals completion exactly at the
last character. -/
theorem accumulate_collect (l : List Char) :
    ∀ s : ToolCallState, s.collecting = true → 0 < s.brace_depth →
    (∀ k, k < l.length → 0 < s.brace_depth + braceBal (l.take k)) →
    s.brace_depth + braceBal l = 0 →
    s.accumulate l = (⟨s.buf ++ l, 0, true⟩, true) := by
  induction l with
  | nil =>
    intro s _ hd _ hend
    exfalso
    simp [braceBal] at hend
    omega
  | cons c cs ih =>
    intro s hc hd hpre hend
    obtain ⟨buf, d, col⟩ := s
    simp only at hc hd hpre hend ⊢
    subst hc
    rw [braceBal_cons] at hend
    by_cases h1 : c = '{'
    · subst h1
      rw [show braceDelta '{' = 1 from by simp [braceDelta]] at hend
      have hstep : ToolCallState.accumulate ⟨buf, d, true⟩ ('{' :: cs)
          = ToolCallState.accumulate ⟨buf ++ ['{'], d + 1, true⟩ cs := by
        simp [ToolCallState.accumulate, accStep]
      have hd2 : (0 : Int) < d + 1 := by omega
      have hp2 : ∀ k, k < cs.length → 0 < d + 1 + braceBal (cs.take k) := by
        intro k hk
        have h := hpre (k + 1) (Nat.succ_lt_succ hk)
        rw [List.take_succ_cons, braceBal_cons,
          show braceDelta '{' = 1 from by simp [braceDelta]] at h
        omega
      have he2 : d + 1 + braceBal cs = 0 := by omega
      have hrec := ih ⟨buf ++ ['{'], d + 1, true⟩ rfl hd2 hp2 he2
      rw [hstep, hrec]
      simp
    by_cases h2 : c = '}'
    · subst h2
      rw [show braceDelta '}' = -1 from by simp [braceDelta]] at hend
      cases cs with
      | nil =>
        have hd1 : d = 1 := by simp [braceBal] at hend; omega
        subst hd1
        rfl
      | cons c2 cs' =>
        have hgt : 0 < d - 1 := by
          have h := hpre 1 (by simp)
          rw [List.take_succ_cons, List.take_zero, braceBal_cons,
            show braceDelta '}' = -1 from by simp [braceDelta]] at h
          simp [braceBal] at h
          omega
        have hne : (d - 1 == 0) = false := by
          simp only [beq_eq_false_iff_ne, ne_eq]
          omega
        have hstep : ToolCallState.accumulate ⟨buf, d, true⟩ ('}' :: c2 :: cs')
            = ToolCallState.accumulate ⟨buf ++ ['}'], d - 1, true⟩ (c2 :: cs') := by
          simp [ToolCallState.accumulate, accStep, hne]
        have hp2 : ∀ k, k < (c2 :: cs').length →
            0 < d - 1 + braceBal ((c2 :: cs').take k) := by
          intro k hk
          have h := hpre (k + 1) (Nat.succ_lt_succ hk)
          rw [List.take_succ_cons, braceBal_cons,
            show braceDelta '}' = -1 from by simp [braceDelta]] at h
          omega
        have he2 : d - 1 + braceBal (c2 :: cs') = 0 := by omega
        have hrec := ih ⟨buf ++ ['}'], d - 1, true⟩ rfl hgt hp2 he2
        rw [hstep, hrec]
        simp
    · have hδ : braceDelta c = 0 := by simp [braceDelta, h1, h2]
      rw [hδ] at hend
      have hstep : ToolCallState.accumulate ⟨buf, d, true⟩ (c :: cs)
          = ToolCallState.accumulate ⟨buf ++ [c], d, true⟩ cs := by
        simp [ToolCallState.accumulate, accStep, h1, h2]
      have hp2 : ∀ k, k < cs.length → 0 < d + braceBal (cs.take k) := by
        intro k hk
        have h := hpre (k + 1) (Nat.succ_lt_succ hk)
        rw [List.take_succ_cons, braceBal_cons, hδ] at h
        omega
      have he2 : d + braceBal cs = 0 := by omega
      have hrec := ih ⟨buf ++ [c], d, true⟩ rfl hd hp2 he2
      rw [hstep, hrec]
      simp

/-- Before the first `'{'`, the idle detector ignores every character
(`tool_call_state.cpp`, lines 14-21). -/
theorem accumulate_skip_idle (pre : List Char) :
    ∀ rest : List Char, (∀ c ∈ pre, c ≠ '{') →
    ToolCallState.init.accumulate (pre ++ rest)
      = ToolCallState.init.accumulate rest := by
  induction pre with
  | nil => intro rest _; rfl
  | cons c pre ih =>
    intro rest hp
    have hc : c ≠ '{' := hp c (by simp)
    have hstep : accStep ToolCallState.init c = (ToolCallState.init, false) := by
      simp [accStep, ToolCallState.init, hc]
    calc ToolCallState.init.accumulate ((c :: pre) ++ rest)
        = ToolCallState.init.accumulate (pre ++ rest) := by
          simp [ToolCallState.accumulate, hstep]
      _ = ToolCallState.init.accumulate rest := ih rest fun d hd => hp d (by simp [hd])

/-- Processing a concatenation: the second half is only reached if the
first half did not already signal completion. -/
theorem accumulate_append (a : List Char) :
    ∀ (s : ToolCallState) (b : List Char),
    s.accumulate (a ++ b) =
      if (s.accumulate a).2 then s.accumulate a
      else (s.accumulate a).1.accumulate b := by
  induction a with
  | nil => intro s b; simp [ToolCallState.accumulate]
  | cons c a ih =>
    intro s b
    by_cases h : (accStep s c).2
    · simp [List.cons_append, ToolCallState.accumulate, h]
    · simp only [List.cons_append, ToolCallState.accumulate, h, if_false,
        Bool.false_eq_true]
      exact ih (accStep s c).1 b

/-- Chunking is irrelevant: feeding chunk by chunk equals feeding the
concatenated byte stream. -/
theorem feedChunks_eq_flatten (chunks : List (List Char)) :
    ∀ s : ToolCallState, feedChunks s chunks = s.accumulate chunks.flatten := by
  induction chunks with
  | nil => intro s; rfl
  | cons ch rest ih =>
    intro s
    rw [List.flatten_cons, accumulate_append]
    by_cases h : (s.accumulate ch).2
    · simp only [feedChunks, h, if_true]
      exact Prod.ext rfl h.symm
    · simp only [feedChunks, h, if_false, Bool.false_eq_true]
      exact ih (s.accumulate ch).1

/-- C1 (amended): for every byte stream `pre ++ O ++ post` — fed to the
detector in any chunking — in which `pre` contains no `'{'` and
`O = '{' :: body` is raw-brace-balanced (counting every brace byte,
including any inside string literals: the depth stays positive on every
proper prefix and reaches zero exactly at the end), `accumulate` signals
completion exactly once, at the final byte of `O`, and the buffer at that
moment is exactly `O`, whitespace included.  Braces appearing inside JSON
string literals DO affect the brace depth, so only raw-balanced objects
round-trip. -/
theorem detector_round_trip (chunks : List (List Char)) (pre body post : List Char)
    (hsplit : chunks.flatten = pre ++ ('{' :: body) ++ post)
    (hpre : ∀ c ∈ pre, c ≠ '{')
    (hbody : ∀ k, k < body.length → 0 < 1 + braceBal (body.take k))
    (hend : 1 + braceBal body = 0) :
    feedChunks ToolCallState.init chunks = (⟨'{' :: body, 0, true⟩, true) := by
  rw [feedChunks_eq_flatten, hsplit, List.append_assoc,
    accumulate_skip_idle pre (('{' :: body) ++ post) hpre]
  have hstart : ToolCallState.init.accumulate (('{' :: body) ++ post)
      = ToolCallState.accumulate ⟨['{'], 1, true⟩ (body ++ post) := by
    simp [ToolCallState.accumulate, accStep, ToolCallState.init]
  rw [hstart, accumulate_append]
  have hb := accumulate_collect body ⟨['{'], 1, true⟩ rfl
    (by show (0 : Int) < 1; omega) hbody hend
  rw [hb]
  simp

/-- Witness for `detector_round_trip`: the stream `ab{"x":{}}tl`, chunked
unevenly, completes with buffer `{"x":{}}`. -/
theorem detector_round_trip_witness :
    feedChunks ToolCallState.init
      [['a', 'b'], ['{', '"', 'x', '"', ':'], ['{', '}', '}'], ['t', 'l']]
      = (⟨['{', '"', 'x', '"', ':', '{', '}', '}'], 0, true⟩, true) :=
  detector_round_trip _ ['a', 'b'] ['"', 'x', '"', ':', '{', '}', '}'] ['t', 'l']
    (by decide) (by decide) (by decide) (by decide)

/-- C1 counterexample: the stream `{"a":"}"}` is a single complete JSON
object under the spec's string-skipping discipline, but the detector —
which counts every brace byte — signals completion at the `'}'` inside
the string literal, so the buffered content is `{"a":"}` and not the
object.  This refutes the claim as stated. -/
theorem detector_round_trip_counterexample :
    specIsObject ['{', '"', 'a', '"', ':', '"', '}', '"', '}'] = true ∧
    (ToolCallState.init.accumulate ['{', '"', 'a', '"', ':', '"', '}', '"', '}']).2 = true ∧
    (ToolCallState.init.accumulate ['{', '"', 'a', '"', ':', '"', '}', '"', '}']).1.buf
      = ['{', '"', 'a', '"', ':', '"', '}'] ∧
    (ToolCallState.init.accumulate ['{', '"', 'a', '"', ':', '"', '}', '"', '}']).1.buf
      ≠ ['{', '"', 'a', '"', ':', '"', '}', '"', '}'] := by
  refine ⟨by decide, by decide, by decide, by decide⟩

/-- `accStep` on the idle detector at a non-brace character is inert. -/
theorem accStep_idle (buf : List Char) (d : Int) (c : Char) (hc : c ≠ '{') :
    accStep ⟨buf, d, false⟩ c = (⟨buf, d, false⟩, false) := by
  simp [accStep, hc]

/-- `accStep` on the idle detector at `'{'` starts collecting. -/
theorem accStep_idle_open (buf : List Char) (d : Int) :
    accStep ⟨buf, d, false⟩ '{' = (⟨['{'], 1, true⟩, false) := by
  simp [accStep]

/-- `accStep` while collecting at `'{'` deepens. -/
theorem accStep_collect_open (buf : List Char) (d : Int) :
    accStep ⟨buf, d, true⟩ '{' = (⟨buf ++ ['{'], d + 1, true⟩, false) := by
  simp [accStep]

/-- `accStep` while collecting at `'}'` shallows and may complete. -/
theorem accStep_collect_close (buf : List Char) (d : Int) :
    accStep ⟨buf, d, true⟩ '}' = (⟨buf ++ ['}'], d - 1, true⟩, d - 1 == 0) := by
  simp [accStep]

/-- `accStep` while collecting at any other character only buffers. -/
theorem accStep_collect_other (buf : List Char) (d : Int) (c : Char)
    (h1 : c ≠ '{') (h2 : c ≠ '}') :
    accStep ⟨buf, d, true⟩ c = (⟨buf ++ [c], d, true⟩, false) := by
  simp [accStep, h1, h2]

/-- Single-step preservation: a step that does not signal completion keeps
the invariant, and a completing step leaves the detector collecting at
depth exactly zero. -/
theorem accStep_inv (s : ToolCallState) (c : Char) (h : detInv s) :
    ((accStep s c).2 = false → detInv (accStep s c).1) ∧
    ((accStep s c).2 = true →
      (accStep s c).1.collecting = true ∧ (accStep s c).1.brace_depth = 0) := by
  obtain ⟨buf, d, col⟩ := s
  obtain ⟨h1, h2⟩ := h
  cases col with
  | false =>
    by_cases hc : c = '{'
    · subst hc
      rw [accStep_idle_open]
      exact ⟨fun _ => ⟨fun _ => by norm_num, fun hf => by simp at hf⟩,
        fun ht => by simp at ht⟩
    · rw [accStep_idle buf d c hc]
      exact ⟨fun _ => ⟨h1, h2⟩, fun ht => by simp at ht⟩
  | true =>
    have hd : 1 ≤ d := h1 rfl
    by_cases hc : c = '{'
    · subst hc
      rw [accStep_collect_open]
      refine ⟨fun _ => ⟨fun _ => ?_, fun hf => by simp at hf⟩, fun ht => by simp at ht⟩
      show 1 ≤ d + 1
      omega
    by_cases hc2 : c = '}'
    · subst hc2
      rw [accStep_collect_close]
      constructor
      · intro hfalse
        have hne : d - 1 ≠ 0 := by
          intro h0
          simp [h0] at hfalse
        refine ⟨fun _ => ?_, fun hf => by simp at hf⟩
        show 1 ≤ d - 1
        omega
      · intro ht
        exact ⟨rfl, beq_iff_eq.mp (by simpa using ht)⟩
    · rw [accStep_collect_other buf d c hc hc2]
      exact ⟨fun _ => ⟨fun _ => hd, fun hf => by simp at hf⟩, fun ht => by simp at ht⟩

/-- Chunk-level preservation of the invariant. -/
theorem accumulate_inv (l : List Char) :
    ∀ s : ToolCallState, detInv s →
    ((s.accumulate l).2 = false → detInv (s.accumulate l).1) ∧
    ((s.accumulate l).2 = true →
      (s.accumulate l).1.collecting = true ∧ (s.accumulate l).1.brace_depth = 0) := by
  induction l with
  | nil =>
    intro s h
    exact ⟨fun _ => h, fun ht => by simp [ToolCallState.accumulate] at ht⟩
  | cons c cs ih =>
    intro s h
    have hs := accStep_inv s c h
    by_cases hd : (accStep s c).2
    · constructor
      · intro hf
        simp [ToolCallState.accumulate, hd] at hf
      · intro _
        simpa [ToolCallState.accumulate, hd] using hs.2 hd
    · have heq : s.accumulate (c :: cs) = (accStep s c).1.accumulate cs := by
        simp [ToolCallState.accumulate, hd]
      rw [heq]
      exact ih (accStep s c).1 (hs.1 (by simpa using hd))

/-- C7 (amended): in every protocol-reachable detector state — reachable
from the initial state by `reset`s and by `accumulate` calls whose
completion signal, when raised, is immediately followed by `reset` or ends
the turn — `collecting` implies `brace_depth ≥ 1`, and `¬collecting`
implies the buffer is empty and the depth is exactly 0. -/
theorem detector_invariant (s : ToolCallState) (h : ProtoReach s) : detInv s := by
  induction h with
  | init => exact ⟨fun hc => by simp [ToolCallState.init] at hc, fun _ => ⟨rfl, rfl⟩⟩
  | step s l _ hf ih => exact (accumulate_inv l s ih).1 hf
  | reset s _ _ =>
    exact ⟨fun hc => by simp [ToolCallState.reset] at hc, fun _ => ⟨rfl, rfl⟩⟩

/-- Witness for `detector_invariant`: the state after accumulating `{a`. -/
theorem detector_invariant_witness :
    detInv (ToolCallState.init.accumulate ['{', 'a']).1 :=
  detector_invariant _ (ProtoReach.step _ _ ProtoReach.init (by decide))

/-- C7 counterexample: the state immediately after `accumulate "{}"`
returns `true` — reachable by one `accumulate` call, hence by "any
sequence of accumulate calls and resets" — has `collecting = true` but
`brace_depth = 0`, violating the claimed invariant `collecting ⇒ depth ≥ 1`. -/
theorem detector_invariant_counterexample :
    RawReach (ToolCallState.init.accumulate ['{', '}']).1 ∧
    (ToolCallState.init.accumulate ['{', '}']).1.collecting = true ∧
    (ToolCallState.init.accumulate ['{', '}']).1.brace_depth = 0 :=
  ⟨RawReach.step _ _ RawReach.init, by decide, by decide⟩

/-- C4: extraction succeeds iff the buffer contains `"tool_calls"`, or both
`"name"` and `"arguments"`; a buffer containing `"tool_calls"` is emitted
unchanged; a bare buffer with `"name"` and `"arguments"` is wrapped into
`{"tool_calls":[ ... ]}`; and when the name scan reads nothing the literal
`tool` is substituted. -/
theorem extract_tool_call_spec (buf : List Char) :
    ((extract_tool_call buf).isSome = true ↔
      (containsSub buf keyToolCalls = true ∨
        (containsSub buf keyName = true ∧ containsSub buf keyArguments = true))) ∧
    (containsSub buf keyToolCalls = true →
      (extract_tool_call buf).map Prod.snd = some buf) ∧
    (containsSub buf keyToolCalls = false → containsSub buf keyName = true →
      containsSub buf keyArguments = true →
      (extract_tool_call buf).map Prod.snd = some (wrapToolCalls buf)) ∧
    (readName buf = [] → (extract_tool_call buf).isSome = true →
      (extract_tool_call buf).map Prod.fst = some "tool".toList) := by
  by_cases hw : containsSub buf keyToolCalls
    <;> by_cases hn : containsSub buf keyName
    <;> by_cases ha : containsSub buf keyArguments
    <;> simp [extract_tool_call, hw, hn, ha]
    <;> intro h0
    <;> simp [h0]

/-- Witness for `extract_tool_call_spec`: a bare `"name"`/`"arguments"`
buffer is wrapped, and its read name is `f`. -/
theorem extract_tool_call_spec_witness :
    (extract_tool_call "\"name\":\"f\",\"arguments\":1".toList).map Prod.snd
      = some (wrapToolCalls "\"name\":\"f\",\"arguments\":1".toList) :=
  (extract_tool_call_spec _).2.2.1 (by decide) (by decide) (by decide)

/-- C6 (amended): with tool calling enabled, the chunks delivered to the
token sink are a subsequence of the decoded chunks in decoder order; a
nonempty chunk is forwarded iff no tool call was extracted in it and the
detector is not collecting once the chunk has been processed (so nothing
is forwarded while the detector is collecting, and bytes of a chunk that
starts or continues a potential tool-call object are withheld with it); a
chunk in which a tool call is extracted is withheld entirely and ends the
turn. -/
theorem stream_order (ts : ToolCallState) (chunks : List (List Char)) :
    ((routeChunks true ts chunks).1.Sublist chunks) ∧
    (∀ c : List Char, c.isEmpty = false →
      ((chunkStep true ts c).2.1 = true ↔
        (chunkStep true ts c).2.2 = none ∧
        (chunkStep true ts c).1.collecting = false)) ∧
    (∀ c e, (chunkStep true ts c).2.2 = some e →
      (chunkStep true ts c).2.1 = false) ∧
    (∀ c rest e, (chunkStep true ts c).2.2 = some e →
      routeChunks true ts (c :: rest) = ([], some e)) := by
  refine ⟨?_, ?_, ?_, ?_⟩
  · induction chunks generalizing ts with
    | nil => simp [routeChunks]
    | cons c rest ih =>
      simp only [routeChunks]
      cases hev : (chunkStep true ts c).2.2 with
      | some e => exact List.nil_sublist _
      | none =>
        by_cases hf : (chunkStep true ts c).2.1
        · simp only [hf, if_true]
          exact List.Sublist.cons₂ c (ih _)
        · simp only [hf, if_false, Bool.false_eq_true]
          exact List.Sublist.cons c (ih _)
  · intro c hc
    simp only [chunkStep, hc, if_false, if_true, Bool.false_eq_true]
    by_cases hdone : (ts.accumulate c).2
    · simp only [hdone, if_true]
      cases hx : extract_tool_call (ts.accumulate c).1.buf with
      | some e => simp
      | none => simp [ToolCallState.reset]
    · simp only [hdone, if_false, Bool.false_eq_true]
      simp [Bool.not_eq_true']
  · intro c e h
    simp only [chunkStep] at h ⊢
    by_cases hc : c.isEmpty
    · simp [hc] at h
    · simp only [hc, if_false, if_true, Bool.false_eq_true] at h ⊢
      by_cases hdone : (ts.accumulate c).2
      · simp only [hdone, if_true] at h ⊢
        cases hx : extract_tool_call (ts.accumulate c).1.buf with
        | some e2 => simp [hx] at h ⊢
        | none => simp [hx] at h
      · simp [hdone] at h
  · intro c rest e h
    simp [routeChunks, h]

/-- Witness for `stream_order`: a turn whose single chunk is the complete
object `{"tool_calls":[]}` ends with the extracted call and an empty sink. -/
theorem stream_order_witness :
    routeChunks true ToolCallState.init
      [['{', '"', 't', 'o', 'o', 'l', '_', 'c', 'a', 'l', 'l', 's', '"', ':', '[', ']', '}']]
      = ([], some ("tool".toList,
          ['{', '"', 't', 'o', 'o', 'l', '_', 'c', 'a', 'l', 'l', 's', '"', ':', '[', ']', '}'])) :=
  (stream_order ToolCallState.init []).2.2.2 _ [] _ (by decide)

/-- C6 counterexample: with tool calling enabled, the single decoded chunk
`hi{` is withheld from the token sink entirely — including the bytes `hi`
that precede the opening brace — even though no tool call is ever
detected.  The claim that every chunk is delivered except bytes inside a
detected tool-call JSON is therefore false. -/
theorem stream_order_counterexample :
    routeChunks true ToolCallState.init [['h', 'i', '{']] = ([], none) ∧
    ['h', 'i', '{'] ≠ ([] : List Char) := by
  exact ⟨by decide, by decide⟩

/-- Inside a string literal, the scanner consumes ordinary characters
without touching the depth, up to the closing quote. -/
theorem braceScan_instr_run (s : List Char) :
    ∀ (d : Int) (rest : List Char), 0 < d →
    (∀ c ∈ s, c ≠ '"' ∧ c ≠ '\\') →
    braceScan d ScanMode.instr (s ++ '"' :: rest)
      = ((braceScan d ScanMode.plain rest).1,
         s ++ '"' :: (braceScan d ScanMode.plain rest).2.1,
         (braceScan d ScanMode.plain rest).2.2) := by
  induction s with
  | nil =>
    intro d rest hd _
    simp [braceScan, hd]
  | cons c s ih =>
    intro d rest hd hs
    have hc := hs c (by simp)
    simp only [List.cons_append, braceScan, hd, if_true,
      if_neg hc.1, if_neg hc.2, List.append_eq]
    rw [ih d rest hd fun x hx => hs x (by simp [hx])]

/-- At positive depth the scanner's move at a character depends only on
the depth, the mode and that character, uniformly in the remaining tail. -/
theorem braceScan_cons (d : Int) (m : ScanMode) (c : Char) (hd : 0 < d) :
    ∃ d2 m2, ∀ l, braceScan d m (c :: l)
      = ((braceScan d2 m2 l).1, c :: (braceScan d2 m2 l).2.1,
         (braceScan d2 m2 l).2.2) := by
  cases m with
  | plain =>
    by_cases h1 : c = '"'
    · exact ⟨d, ScanMode.instr, fun l => by simp [braceScan, hd, h1]⟩
    by_cases h2 : c = '{'
    · exact ⟨d + 1, ScanMode.plain, fun l => by simp [braceScan, hd, h1, h2]⟩
    by_cases h3 : c = '}'
    · exact ⟨d - 1, ScanMode.plain, fun l => by simp [braceScan, hd, h1, h2, h3]⟩
    · exact ⟨d, ScanMode.plain, fun l => by simp [braceScan, hd, h1, h2, h3]⟩
  | instr =>
    by_cases h1 : c = '"'
    · exact ⟨d, ScanMode.plain, fun l => by simp [braceScan, hd, h1]⟩
    by_cases h2 : c = '\\'
    · exact ⟨d, ScanMode.esc, fun l => by simp [braceScan, hd, h1, h2]⟩
    · exact ⟨d, ScanMode.instr, fun l => by simp [braceScan, hd, h1, h2]⟩
  | esc => exact ⟨d, ScanMode.instr, fun l => by simp [braceScan, hd]⟩

/-- A scan that consumes its whole input and ends exactly at depth zero is
unaffected by appending more input: the appended part is left unread. -/
theorem braceScan_append (a : List Char) :
    ∀ (d : Int) (m : ScanMode) (b : List Char),
    braceScan d m a = (0, a, []) →
    braceScan d m (a ++ b) = (0, a, b) := by
  induction a with
  | nil =>
    intro d m b h
    have hd : d = 0 := by
      have h1 := congrArg Prod.fst h
      simpa [braceScan] using h1
    subst hd
    cases b with
    | nil => simp [braceScan]
    | cons x xs => simp [braceScan]
  | cons c cs ih =>
    intro d m b h
    by_cases hd : (0 : Int) < d
    · obtain ⟨d2, m2, hstep⟩ := braceScan_cons d m c hd
      rw [hstep cs] at h
      simp only [Prod.mk.injEq, List.cons.injEq, true_and] at h
      have hsub : braceScan d2 m2 cs = (0, cs, []) :=
        Prod.ext h.1 (Prod.ext h.2.1 h.2.2)
      rw [List.cons_append, hstep (cs ++ b), ih d2 m2 b hsub]
    · exfalso
      simp only [braceScan, hd, if_false] at h
      have h2 := congrArg (fun p : Int × List Char × List Char => p.2.1) h
      simp at h2

/-- Skipping whitespace up to an opening brace. -/
theorem dropWsToObj_ws (ws : List Char) :
    ∀ t : List Char, (∀ c ∈ ws, isJsonWs c = true) →
    dropWsToObj (ws ++ '{' :: t) = some ('{' :: t) := by
  induction ws with
  | nil => intro t _; rfl
  | cons c ws ih =>
    intro t h
    have hc : isJsonWs c = true := h c (by simp)
    simp only [List.cons_append, dropWsToObj, hc, if_true]
    exact ih t fun x hx => h x (by simp [hx])

/-- C10: when the buffer contains the `"arguments"` key, a colon directly
after it, optional whitespace and a string-skip-balanced object
`'{' :: body`, `extract_arguments` returns exactly that object (braces
inside quoted argument values neither close the object nor disturb it,
and are preserved verbatim); it returns `none` when the key is missing,
when the value after the colon does not start with `'{'`, and when the
braces never balance; and the scan leaves the contents of string literals
— including braces — untouched and uncounted. -/
theorem extract_arguments_spec :
    (∀ (buf : List Char) (apos : Nat) (ws body post : List Char),
      strFind buf keyArguments = some apos →
      buf.drop (apos + 11) = ':' :: (ws ++ ('{' :: body) ++ post) →
      (∀ c ∈ ws, isJsonWs c = true) →
      braceScan 1 ScanMode.plain body = (0, body, []) →
      extract_arguments buf = some ('{' :: body)) ∧
    (∀ buf : List Char, strFind buf keyArguments = none →
      extract_arguments buf = none) ∧
    (∀ (buf : List Char) (apos : Nat) (rest : List Char),
      strFind buf keyArguments = some apos →
      (buf.drop (apos + 11)).dropWhile (fun c => c != ':') = ':' :: rest →
      dropWsToObj rest = none →
      extract_arguments buf = none) ∧
    (∀ (buf : List Char) (apos : Nat) (rest t : List Char),
      strFind buf keyArguments = some apos →
      (buf.drop (apos + 11)).dropWhile (fun c => c != ':') = ':' :: rest →
      dropWsToObj rest = some ('{' :: t) →
      (braceScan 1 ScanMode.plain t).1 ≠ 0 →
      extract_arguments buf = none) ∧
    (∀ (d : Int) (s rest : List Char), 0 < d →
      (∀ c ∈ s, c ≠ '"' ∧ c ≠ '\\') →
      braceScan d ScanMode.plain ('"' :: (s ++ '"' :: rest))
        = ((braceScan d ScanMode.plain rest).1,
           '"' :: (s ++ '"' :: (braceScan d ScanMode.plain rest).2.1),
           (braceScan d ScanMode.plain rest).2.2)) := by
  refine ⟨?_, ?_, ?_, ?_, ?_⟩
  · intro buf apos ws body post hfind hdrop hws hbal
    have hcolon : (buf.drop (apos + 11)).dropWhile (fun c => c != ':')
        = ':' :: (ws ++ ('{' :: body) ++ post) := by
      rw [hdrop]
      simp [List.dropWhile_cons]
    have hobj : dropWsToObj (ws ++ ('{' :: body) ++ post)
        = some ('{' :: (body ++ post)) := by
      rw [List.append_assoc, List.cons_append]
      exact dropWsToObj_ws ws (body ++ post) hws
    simp only [extract_arguments, hfind, hcolon, hobj,
      braceScan_append body 1 ScanMode.plain post hbal]
    simp
  · intro buf h
    simp [extract_arguments, h]
  · intro buf apos rest hfind hcolon hobj
    simp [extract_arguments, hfind, hcolon, hobj]
  · intro buf apos rest t hfind hcolon hobj hbal
    simp [extract_arguments, hfind, hcolon, hobj, hbal]
  · intro d s rest hd hs
    simp only [braceScan, hd, if_true]
    rw [braceScan_instr_run s d rest hd hs]

/-- Witness for `extract_arguments_spec`: the buffer
`x"arguments": {"a":"}"}y` yields exactly `{"a":"}"}` — the brace inside
the string value is preserved and not counted. -/
theorem extract_arguments_spec_witness :
    extract_arguments
      ['x', '"', 'a', 'r', 'g', 'u', 'm', 'e', 'n', 't', 's', '"', ':', ' ',
       '{', '"', 'a', '"', ':', '"', '}', '"', '}', 'y']
      = some ['{', '"', 'a', '"', ':', '"', '}', '"', '}'] :=
  extract_arguments_spec.1 _ 1 [' ']
    ['"', 'a', '"', ':', '"', '}', '"', '}'] ['y']
    (by decide) (by decide) (by decide) (by decide)

theorem chainGrammarHandles_append (a b : List Stage) :
    chainGrammarHandles (a ++ b)
      = chainGrammarHandles a ++ chainGrammarHandles b :=
  List.filterMap_append a b _

theorem chainGrammarHandles_standard (p : SamplerParams) :
    chainGrammarHandles (standardStages p) = [] := by
  unfold standardStages
  split_ifs <;> simp [chainGrammarHandles]

theorem grammar_mem_chainGrammarHandles (h : Nat) (l : List Stage)
    (hm : Stage.grammar h ∈ l) : h ∈ chainGrammarHandles l := by
  unfold chainGrammarHandles
  rw [List.mem_filterMap]
  exact ⟨Stage.grammar h, hm, rfl⟩

/-- C2: whenever tool calling is enabled and a canonical grammar sampler
`g` exists (and cloning succeeds), the chain built by `rebuild_sampler`
has exactly one grammar stage, it is the clone of `g`, it sits first in
the chain, and it is the chain that owns and frees it; the canonical `g`
is never added to the chain, so it survives chain destruction and is
freed only by the model state's own `release`. -/
theorem sampler_chain_grammar_ownership (g : Nat) (clone : Nat → Nat)
    (p : SamplerParams) (hclone : clone g ≠ g) :
    (rebuild_sampler_chain true (some g) clone true p).head?
        = some (Stage.grammar (clone g)) ∧
    chainGrammarHandles (rebuild_sampler_chain true (some g) clone true p)
        = [clone g] ∧
    Stage.grammar g ∉ rebuild_sampler_chain true (some g) clone true p ∧
    g ∉ chainGrammarHandles (rebuild_sampler_chain true (some g) clone true p) ∧
    g ∈ releaseFrees (some g) (rebuild_sampler_chain true (some g) clone true p) := by
  have hgram : chainGrammarHandles (rebuild_sampler_chain true (some g) clone true p)
      = [clone g] := by
    unfold rebuild_sampler_chain
    rw [chainGrammarHandles_append]
    by_cases hm : 0 < p.mirostat
    · simp [hm, chainGrammarHandles]
    · rw [if_neg hm, chainGrammarHandles_standard]
      simp [chainGrammarHandles]
  refine ⟨?_, hgram, ?_, ?_, ?_⟩
  · unfold rebuild_sampler_chain
    simp
  · intro hmem
    have := grammar_mem_chainGrammarHandles g _ hmem
    rw [hgram] at this
    simp at this
    exact hclone this.symm
  · intro hmem
    rw [hgram] at hmem
    simp at hmem
    exact hclone hmem.symm
  · simp [releaseFrees]

/-- Witness for `sampler_chain_grammar_ownership` at concrete parameters:
canonical handle 5, clone handle 6. -/
theorem sampler_chain_grammar_ownership_witness :
    (rebuild_sampler_chain true (some 5) Nat.succ true
        ⟨40, 9 / 10, 7 / 10, 1 / 20, 0, 5, 1 / 10, 42⟩).head?
      = some (Stage.grammar 6) :=
  (sampler_chain_grammar_ownership 5 Nat.succ
    ⟨40, 9 / 10, 7 / 10, 1 / 20, 0, 5, 1 / 10, 42⟩ (by decide)).1

/-- The reuse branch (`model_state.cpp`, lines 449-454) is a strict no-op. -/
theorem update_noop (env : GrammarEnv) (s : GrammarState)
    (hen : s.tools_enabled = true) (hne : s.tools_json ≠ "")
    (hcond : s.grammar_needs_rebuild = false ∧ s.tools_json = s.cached_tools_json) :
    update_grammar_if_needed env s = ⟨s, [], false⟩ := by
  unfold update_grammar_if_needed
  rw [if_neg (by simp [hen, hne]), if_pos (by simp [hcond.1, hcond.2])]

/-- When the reuse condition fails, the rebuild path is entered and the
cache fields are written regardless of which grammar attempt (if any)
succeeded; the tool fields are untouched. -/
theorem update_rebuild_path (env : GrammarEnv) (s : GrammarState)
    (hen : s.tools_enabled = true) (hne : s.tools_json ≠ "")
    (hcond : ¬(s.grammar_needs_rebuild = false ∧ s.tools_json = s.cached_tools_json)) :
    (update_grammar_if_needed env s).rebuilt = true ∧
    (update_grammar_if_needed env s).state.cached_tools_json = s.tools_json ∧
    (update_grammar_if_needed env s).state.grammar_needs_rebuild = false ∧
    (update_grammar_if_needed env s).state.tools_enabled = s.tools_enabled ∧
    (update_grammar_if_needed env s).state.tools_json = s.tools_json := by
  unfold update_grammar_if_needed
  rw [if_neg (by simp [hen, hne]), if_neg (by simpa [Bool.not_eq_true] using hcond)]
  refine ⟨?_, ?_, ?_, ?_, ?_⟩ <;> dsimp only <;> split_ifs <;> rfl

/-- C5: with tool calling enabled and a non-empty catalog,
`update_grammar_if_needed` is a no-op — it rebuilds nothing, frees
nothing and leaves the state untouched — if and only if the catalog text
is byte-identical to the cached copy and no invalidate is pending; every
rebuild attempt records the catalog text and clears the rebuild flag
regardless of compilation success, so a second call on the same catalog
(under any environment, e.g. on the next generation) is again a no-op. -/
theorem grammar_cache_spec (env : GrammarEnv) (s : GrammarState)
    (hen : s.tools_enabled = true) (hne : s.tools_json ≠ "") :
    (((update_grammar_if_needed env s).rebuilt = false ∧
      (update_grammar_if_needed env s).freed = [] ∧
      (update_grammar_if_needed env s).state = s) ↔
      (s.grammar_needs_rebuild = false ∧ s.tools_json = s.cached_tools_json)) ∧
    ((update_grammar_if_needed env s).rebuilt = true →
      (update_grammar_if_needed env s).state.cached_tools_json = s.tools_json ∧
      (update_grammar_if_needed env s).state.grammar_needs_rebuild = false) ∧
    (∀ env2 : GrammarEnv, (update_grammar_if_needed env s).rebuilt = true →
      (update_grammar_if_needed env2 (update_grammar_if_needed env s).state).rebuilt
          = false ∧
      (update_grammar_if_needed env2 (update_grammar_if_needed env s).state).freed
          = [] ∧
      (update_grammar_if_needed env2 (update_grammar_if_needed env s).state).state
          = (update_grammar_if_needed env s).state) := by
  refine ⟨⟨?_, ?_⟩, ?_, ?_⟩
  · intro ⟨h1, _, _⟩
    by_contra hc
    have h := update_rebuild_path env s hen hne hc
    rw [h.1] at h1
    cases h1
  · intro hc
    rw [update_noop env s hen hne hc]
    exact ⟨rfl, rfl, rfl⟩
  · intro hr
    by_cases hc : s.grammar_needs_rebuild = false ∧ s.tools_json = s.cached_tools_json
    · rw [update_noop env s hen hne hc] at hr
      cases hr
    · exact ⟨(update_rebuild_path env s hen hne hc).2.1,
        (update_rebuild_path env s hen hne hc).2.2.1⟩
  · intro env2 hr
    by_cases hc : s.grammar_needs_rebuild = false ∧ s.tools_json = s.cached_tools_json
    · rw [update_noop env s hen hne hc] at hr
      cases hr
    · have h := update_rebuild_path env s hen hne hc
      have hen2 : (update_grammar_if_needed env s).state.tools_enabled = true := by
        rw [h.2.2.2.1, hen]
      have hne2 : (update_grammar_if_needed env s).state.tools_json ≠ "" := by
        rw [h.2.2.2.2]
        exact hne
      have hcond2 : (update_grammar_if_needed env s).state.grammar_needs_rebuild = false ∧
          (update_grammar_if_needed env s).state.tools_json
            = (update_grammar_if_needed env s).state.cached_tools_json := by
        exact ⟨h.2.2.1, by rw [h.2.2.2.2, h.2.1]⟩
      rw [update_noop env2 _ hen2 hne2 hcond2]
      exact ⟨rfl, rfl, rfl⟩

/-- Witness for `grammar_cache_spec`: with the catalog `cat` cached and no
invalidate pending, the call is a strict no-op. -/
theorem grammar_cache_spec_witness :
    (update_grammar_if_needed
        ⟨true, fun _ => "G", fun _ => "H", true, fun _ => some 7, fun _ => none⟩
        ⟨true, "cat", "cat", false, some 3⟩).rebuilt = false ∧
    (update_grammar_if_needed
        ⟨true, fun _ => "G", fun _ => "H", true, fun _ => some 7, fun _ => none⟩
        ⟨true, "cat", "cat", false, some 3⟩).freed = [] ∧
    (update_grammar_if_needed
        ⟨true, fun _ => "G", fun _ => "H", true, fun _ => some 7, fun _ => none⟩
        ⟨true, "cat", "cat", false, some 3⟩).state
      = ⟨true, "cat", "cat", false, some 3⟩ :=
  (grammar_cache_spec _ _ rfl (by decide)).1.mpr ⟨rfl, rfl⟩

theorem langG_sepKv (t q : String) : langG (sepKv t q) = [sepToks t q] := by
  simp [sepKv, langG, sepToks]

theorem langG_reqTail (t : String) (q : String) :
    ∀ rest : List String,
    langG (reqTail t q rest) = [(q :: rest).flatMap (sepToks t)] := by
  intro rest
  induction rest generalizing q with
  | nil => simp [reqTail, langG_sepKv]
  | cons r rest ih =>
    simp [reqTail, langG, langG_sepKv, ih r, sepToks]

theorem langG_reqExpr (t : String) (p : String) (ps : List String) :
    langG (reqExpr t p ps) = [kvToks t (p :: ps)] := by
  cases ps with
  | nil => simp [reqExpr, langG, kvToks]
  | cons q rest =>
    simp [reqExpr, langG, langG_reqTail, kvToks]

theorem langG_optTail (t : String) (q : String) :
    ∀ os : List String,
    langG (optTail t q os) =
      (List.range (os.length + 1)).map
        fun k => ((q :: os).take (k + 1)).flatMap (sepToks t) := by
  intro os
  induction os generalizing q with
  | nil => simp [optTail, langG_sepKv, List.range_succ]
  | cons r rest ih =>
    have hL : langG (optTail t q (r :: rest))
        = sepToks t q
          :: (langG (optTail t r rest)).map (fun y => sepToks t q ++ y) := by
      simp [optTail, langG, langG_sepKv, sepToks]
    rw [hL, ih r]
    conv_rhs =>
      rw [show (r :: rest).length + 1 = rest.length + 1 + 1 from by simp]
      rw [List.range_succ_eq_map]
      rw [List.map_cons]
      rw [List.map_map]
    rw [List.map_map]
    congr 1

theorem langG_optChain (t : String) (p : String) :
    ∀ os : List String,
    langG (optChain t p os) =
      (List.range (os.length + 1)).map
        fun k => kvToks t ((p :: os).take (k + 1)) := by
  intro os
  cases os with
  | nil => simp [optChain, langG, kvToks, List.range_succ]
  | cons q rest =>
    have hL : langG (optChain t p (q :: rest))
        = [GTok.kv t p]
          :: (langG (optTail t q rest)).map (fun y => GTok.kv t p :: y) := by
      simp [optChain, langG]
    rw [hL, langG_optTail]
    conv_rhs =>
      rw [show (q :: rest).length + 1 = rest.length + 1 + 1 from by simp]
      rw [List.range_succ_eq_map]
      rw [List.map_cons]
      rw [List.map_map]
    rw [List.map_map]
    congr 1

/-- The common shape `"{" ws <mid> ws "}"` around any middle expression. -/
theorem langG_frame (mid : GExpr) :
    langG (GExpr.seq (GExpr.tok GTok.lbrace) (GExpr.seq (GExpr.tok GTok.wsp)
      (GExpr.seq mid (GExpr.seq (GExpr.tok GTok.wsp) (GExpr.tok GTok.rbrace)))))
      = (langG mid).map argsToks := by
  simp only [langG, List.flatMap_cons, List.flatMap_nil, List.map_cons,
    List.map_nil, List.append_nil, List.map_map]
  induction langG mid with
  | nil => rfl
  | cons x xs ih =>
    simp only [List.flatMap_cons, List.map_append, List.map_cons, List.map_nil,
      List.map_map] at ih ⊢
    rw [ih]
    rfl

theorem render_reqTail (t : String) :
    ∀ (rest : List String) (q : String),
    " " ++ renderG (reqTail t q rest) = reqLoopStr t (q :: rest) := by
  intro rest
  induction rest with
  | nil =>
    intro q
    simp only [reqTail, sepKv, renderG, renderTok, reqLoopStr, kvName,
      String.append_empty, String.append_assoc]
    rfl
  | cons r rest ih =>
    intro q
    rw [show reqLoopStr t (q :: r :: rest)
        = " ws \",\" ws " ++ kvName t q ++ reqLoopStr t (r :: rest) from rfl,
      ← ih r]
    simp only [reqTail, sepKv, renderG, renderTok, kvName, String.append_assoc]
    rfl

theorem render_reqExpr (t : String) (p : String) (ps : List String) :
    renderG (reqExpr t p ps) = reqPartStr t (p :: ps) := by
  cases ps with
  | nil =>
    simp only [reqExpr, renderG, renderTok, reqPartStr, reqLoopStr, kvName,
      String.append_empty]
  | cons q rest =>
    rw [show reqPartStr t (p :: q :: rest)
        = kvName t p ++ reqLoopStr t (q :: rest) from rfl,
      ← render_reqTail t rest q]
    simp only [reqExpr, renderG, renderTok, kvName, String.append_assoc]

theorem optCloseStr_comm :
    ∀ (os : List String) (x : String),
    optCloseStr os ++ (")?" ++ x) = ")?" ++ (optCloseStr os ++ x) := by
  intro os
  induction os with
  | nil => intro x; rfl
  | cons r rest ih =>
    intro x
    rw [show optCloseStr (r :: rest) = ")?" ++ optCloseStr rest from rfl]
    rw [String.append_assoc, ih x, String.append_assoc]

theorem render_optTail (t : String) :
    ∀ (os : List String) (q : String) (k : String),
    " " ++ ("(" ++ (renderG (optTail t q os) ++ (")?" ++ k)))
      = " (ws \",\" ws " ++ (kvName t q ++ (optOpenStr t os
          ++ (optCloseStr os ++ (")?" ++ k)))) := by
  intro os
  induction os with
  | nil =>
    intro q k
    simp only [optTail, sepKv, renderG, renderTok, optOpenStr, optCloseStr,
      kvName, String.append_assoc, String.empty_append]
    rfl
  | cons r rest ih =>
    intro q k
    rw [show optOpenStr t (r :: rest)
        = " (ws \",\" ws " ++ kvName t r ++ optOpenStr t rest from rfl]
    rw [show optCloseStr (r :: rest) = ")?" ++ optCloseStr rest from rfl]
    rw [show optTail t q (r :: rest)
        = GExpr.seq (sepKv t q) (GExpr.opt (optTail t r rest)) from rfl]
    simp only [sepKv, renderG, renderTok, kvName, String.append_assoc]
    rw [ih r (")?" ++ k)]
    simp only [kvName, String.append_assoc]
    rw [optCloseStr_comm rest (")?" ++ k)]
    rfl

theorem render_optChain (t : String) :
    ∀ (os : List String) (o : String) (k : String),
    renderG (optChain t o os) ++ k
      = kvName t o ++ (optOpenStr t os ++ (optCloseStr os ++ k)) := by
  intro os
  cases os with
  | nil =>
    intro o k
    simp only [optChain, renderG, renderTok, optOpenStr, optCloseStr, kvName,
      String.append_assoc, String.empty_append]
  | cons r rest =>
    intro o k
    rw [show optOpenStr t (r :: rest)
        = " (ws \",\" ws " ++ kvName t r ++ optOpenStr t rest from rfl]
    rw [show optCloseStr (r :: rest) = ")?" ++ optCloseStr rest from rfl]
    rw [show optChain t o (r :: rest)
        = GExpr.seq (GExpr.tok (GTok.kv t o)) (GExpr.opt (optTail t r rest)) from rfl]
    simp only [renderG, renderTok, kvName, String.append_assoc]
    rw [render_optTail t rest r k]
    simp only [kvName, String.append_assoc]
    rw [optCloseStr_comm rest k]

/-- The emitted rule text is exactly the rendering of the grammar
expression: the string emitter and the expression semantics describe the
same grammar. -/
theorem args_rule_render (t : String) (req opt : List String) :
    args_rule_string t req opt
      = "args_" ++ t ++ " ::= " ++ renderG (argsBody t req opt) ++ "\n" := by
  cases req with
  | nil =>
    cases opt with
    | nil =>
      rw [show args_rule_string t [] []
          = "args_" ++ t ++ " ::= \"\x7b\" ws \"\x7d\"\n" from rfl]
      simp only [argsBody, renderG, renderTok, String.append_assoc]
      rfl
    | cons o os =>
      rw [show args_rule_string t [] (o :: os)
          = "args_" ++ t ++ " ::= \"\x7b\" ws " ++ reqPartStr t []
              ++ optPartStr t [] (o :: os) ++ " ws \"\x7d\"\n" from rfl]
      rw [show reqPartStr t [] = "" from rfl]
      rw [show optPartStr t [] (o :: os)
          = "(" ++ kvName t o ++ optOpenStr t os ++ optCloseStr os ++ ")?"
        from rfl]
      simp only [argsBody, renderG, renderTok, String.append_assoc,
        String.empty_append]
      rw [render_optChain t os o
        (")?" ++ (" " ++ ("ws" ++ (" " ++ ("\"\x7d\"" ++ "\n")))))]
      rfl
  | cons r rs =>
    cases opt with
    | nil =>
      rw [show args_rule_string t (r :: rs) []
          = "args_" ++ t ++ " ::= \"\x7b\" ws " ++ reqPartStr t (r :: rs)
              ++ optPartStr t (r :: rs) [] ++ " ws \"\x7d\"\n" from rfl]
      rw [show optPartStr t (r :: rs) [] = "" from rfl]
      rw [← render_reqExpr t r rs]
      simp only [argsBody, renderG, renderTok, String.append_assoc,
        String.append_empty]
      rfl
    | cons o os =>
      rw [show args_rule_string t (r :: rs) (o :: os)
          = "args_" ++ t ++ " ::= \"\x7b\" ws " ++ reqPartStr t (r :: rs)
              ++ optPartStr t (r :: rs) (o :: os) ++ " ws \"\x7d\"\n" from rfl]
      rw [show optPartStr t (r :: rs) (o :: os)
          = " (ws \",\" ws " ++ kvName t o ++ optOpenStr t os
              ++ optCloseStr os ++ ")?" from rfl]
      rw [← render_reqExpr t r rs]
      simp only [argsBody, renderG, renderTok, String.append_assoc]
      rw [render_optTail t os o (" " ++ ("ws" ++ (" " ++ ("\"\x7d\"" ++ "\n"))))]
      rfl

theorem langG_argsBody_req (t r : String) (rs : List String) :
    langG (argsBody t (r :: rs) []) = [argsToks (kvToks t (r :: rs))] := by
  rw [show argsBody t (r :: rs) [] = GExpr.seq (GExpr.tok GTok.lbrace)
      (GExpr.seq (GExpr.tok GTok.wsp) (GExpr.seq (reqExpr t r rs)
        (GExpr.seq (GExpr.tok GTok.wsp) (GExpr.tok GTok.rbrace)))) from rfl]
  rw [langG_frame, langG_reqExpr]
  rfl

theorem langG_argsBody_opt (t o : String) (os : List String) :
    langG (argsBody t [] (o :: os))
      = (List.range ((o :: os).length + 1)).map
          fun k => argsToks (kvToks t ((o :: os).take k)) := by
  rw [show argsBody t [] (o :: os) = GExpr.seq (GExpr.tok GTok.lbrace)
      (GExpr.seq (GExpr.tok GTok.wsp) (GExpr.seq (GExpr.opt (optChain t o os))
        (GExpr.seq (GExpr.tok GTok.wsp) (GExpr.tok GTok.rbrace)))) from rfl]
  rw [langG_frame]
  rw [show langG (GExpr.opt (optChain t o os))
      = [] :: langG (optChain t o os) from rfl]
  rw [langG_optChain]
  rw [List.map_cons, List.map_map]
  conv_rhs =>
    rw [show (o :: os).length + 1 = os.length + 1 + 1 from by simp]
    rw [List.range_succ_eq_map]
    rw [List.map_cons]
    rw [List.map_map]
  congr 1

theorem langG_argsBody_mixed (t r o : String) (rs os : List String) :
    langG (argsBody t (r :: rs) (o :: os))
      = (List.range ((o :: os).length + 1)).map
          fun k => argsToks (kvToks t (r :: rs)
              ++ ((o :: os).take k).flatMap (sepToks t)) := by
  rw [show argsBody t (r :: rs) (o :: os) = GExpr.seq (GExpr.tok GTok.lbrace)
      (GExpr.seq (GExpr.tok GTok.wsp)
        (GExpr.seq (GExpr.seq (reqExpr t r rs) (GExpr.opt (optTail t o os)))
          (GExpr.seq (GExpr.tok GTok.wsp) (GExpr.tok GTok.rbrace)))) from rfl]
  rw [langG_frame]
  have hmid : langG (GExpr.seq (reqExpr t r rs) (GExpr.opt (optTail t o os)))
      = (([] : List GTok) :: langG (optTail t o os)).map
          fun y => kvToks t (r :: rs) ++ y := by
    rw [show langG (GExpr.seq (reqExpr t r rs) (GExpr.opt (optTail t o os)))
        = (langG (reqExpr t r rs)).flatMap
            (fun x => (langG (GExpr.opt (optTail t o os))).map fun y => x ++ y)
      from rfl]
    rw [langG_reqExpr]
    rw [show langG (GExpr.opt (optTail t o os))
        = [] :: langG (optTail t o os) from rfl]
    simp [List.flatMap_cons]
  rw [hmid, langG_optTail]
  rw [List.map_cons, List.map_map]
  conv_rhs =>
    rw [show (o :: os).length + 1 = os.length + 1 + 1 from by simp]
    rw [List.range_succ_eq_map]
    rw [List.map_cons]
    rw [List.map_map]
  simp

/-- C3: for every parsed tool, with `req`/`opt` the declaration-ordered
required/optional split of its parameters, the `args_<tool>` rule derives:
with zero declared parameters exactly the empty object `{ ws }`; with
required parameters only, exactly one string carrying every required
parameter in declaration order, comma-separated; with optional parameters
only, exactly the `n+1` declaration-order prefixes, the comma immediately
preceding each included field and no trailing comma derivable; with both,
the full required block followed by those optional prefixes.  The grammar
expression is tied to the source: its rendering is character for
character the rule text `build_tool_grammar_typed` emits. -/
theorem typed_args_grammar_spec (tool : ToolInfo) (req opt : List String)
    (hreq : req = ((splitParams tool).1).map ToolParamInfo.name)
    (hopt : opt = ((splitParams tool).2).map ToolParamInfo.name) :
    (req = [] → opt = [] →
      langG (argsBody tool.name req opt)
        = [[GTok.lbrace, GTok.wsp, GTok.rbrace]]) ∧
    (req ≠ [] → opt = [] →
      langG (argsBody tool.name req opt)
        = [argsToks (kvToks tool.name req)]) ∧
    (req = [] → opt ≠ [] →
      langG (argsBody tool.name req opt)
        = (List.range (opt.length + 1)).map
            fun k => argsToks (kvToks tool.name (opt.take k))) ∧
    (req ≠ [] → opt ≠ [] →
      langG (argsBody tool.name req opt)
        = (List.range (opt.length + 1)).map
            fun k => argsToks (kvToks tool.name req
                ++ (opt.take k).flatMap (sepToks tool.name))) ∧
    args_rule_string tool.name req opt
      = "args_" ++ tool.name ++ " ::= "
          ++ renderG (argsBody tool.name req opt) ++ "\n" := by
  refine ⟨?_, ?_, ?_, ?_, args_rule_render tool.name req opt⟩
  · intro h1 h2
    subst h1
    subst h2
    rfl
  · intro h1 h2
    obtain ⟨r, rs, rfl⟩ := List.exists_cons_of_ne_nil h1
    subst h2
    exact langG_argsBody_req tool.name r rs
  · intro h1 h2
    obtain ⟨o, os, rfl⟩ := List.exists_cons_of_ne_nil h2
    subst h1
    exact langG_argsBody_opt tool.name o os
  · intro h1 h2
    obtain ⟨r, rs, rfl⟩ := List.exists_cons_of_ne_nil h1
    obtain ⟨o, os, rfl⟩ := List.exists_cons_of_ne_nil h2
    exact langG_argsBody_mixed tool.name r o rs os

/-- Witness for `typed_args_grammar_spec`: tool `T` with required `a` and
optionals `b`, `c` admits exactly the three prefixes of its optional
list after the fixed required block. -/
theorem typed_args_grammar_spec_witness :
    langG (argsBody "T" ["a"] ["b", "c"])
      = (List.range (["b", "c"].length + 1)).map
          fun k => argsToks (kvToks "T" ["a"]
              ++ ((["b", "c"].take k).flatMap (sepToks "T"))) :=
  (typed_args_grammar_spec
    ⟨"T", [⟨"a", "string", []⟩, ⟨"b", "number", []⟩, ⟨"c", "boolean", []⟩],
      ["a"]⟩
    ["a"] ["b", "c"] (by decide) (by decide)).2.2.2.1
    (by decide) (by decide)

/-- C8 (amended): every input in which the literal trigger pattern
`"function":{"type":"function"` does not occur is returned unchanged, and
consequently normalisation is idempotent at every input whose output no
longer contains that pattern.  Unrestricted idempotence, and
unchangedness of all non-double-wrapped inputs, fail — see the
counterexample. -/
theorem normalize_tools_spec (x : List Char) :
    (containsSub x triggerPattern = false → normalize_tools_json x = x) ∧
    (containsSub (normalize_tools_json x) triggerPattern = false →
      normalize_tools_json (normalize_tools_json x) = normalize_tools_json x) := by
  constructor
  · intro h
    simp [normalize_tools_json, h]
  · intro h
    conv_lhs => rw [normalize_tools_json]
    rw [if_neg (by simp [h])]

/-- Witness for `normalize_tools_spec`: a catalog without the trigger
pattern passes through unchanged. -/
theorem normalize_tools_spec_witness :
    normalize_tools_json
        "[\x7b\"type\":\"function\",\"function\":\x7b\"name\":\"t\"\x7d\x7d]".toList
      = "[\x7b\"type\":\"function\",\"function\":\x7b\"name\":\"t\"\x7d\x7d]".toList :=
  (normalize_tools_spec _).1 (by decide)

/-- C8 counterexample: normalisation is not idempotent — a triple-wrapped
catalog needs two passes (each pass strips exactly one wrapping level) —
and an input that is not double-wrapped is not always returned unchanged:
a trailing `"function":` key at the very end of the string gains the C++
`operator[](size())` null character. -/
theorem normalize_tools_counterexample :
    normalize_tools_json (normalize_tools_json
        "\x7b\"function\":\x7b\"type\":\"function\",\"function\":\x7b\"type\":\"function\",\"function\":\x7b\x7d\x7d\x7d\x7d".toList)
      ≠ normalize_tools_json
        "\x7b\"function\":\x7b\"type\":\"function\",\"function\":\x7b\"type\":\"function\",\"function\":\x7b\x7d\x7d\x7d\x7d".toList ∧
    normalize_tools_json
        "\x7b\"function\":\x7b\"type\":\"function\"\x7d,\"function\":".toList
      ≠ "\x7b\"function\":\x7b\"type\":\"function\"\x7d,\"function\":".toList := by
  exact ⟨by decide, by decide⟩

theorem generateLoop_transcript (env : OrchEnv) (r : Nat) :
    ∀ msgs : List ChatMessage,
      (generateLoop env r msgs).1
        = msgs ++ (executedPairs env r msgs).flatMap roundMessages := by
  induction r with
  | zero => intro msgs; simp [generateLoop, executedPairs]
  | succ r ih =>
    intro msgs
    cases h : env.round msgs with
    | rerror m => simp [generateLoop, executedPairs, h]
    | text t => simp [generateLoop, executedPairs, h]
    | toolCall name payload =>
      cases hp : env.parse payload with
      | none => simp [generateLoop, executedPairs, h, hp]
      | some tc =>
        simp only [generateLoop, executedPairs, h, hp, List.flatMap_cons,
          roundMessages, ih, List.append_assoc]

theorem flatMap_roundMessages_length (ps : List (String × String)) :
    (ps.flatMap roundMessages).length = 2 * ps.length := by
  induction ps with
  | nil => rfl
  | cons p tl ih => simp [roundMessages, ih]; omega

/-- C9: the conversation after the round loop is the initial messages
followed, per executed tool round in order, by exactly the assistant
message carrying that round's raw payload and the tool message carrying
the executor's result — so the history grows by exactly two messages per
executed round — and a round that produces plain text appends nothing and
returns the text. -/
theorem tool_round_message_growth (env : OrchEnv) (r : Nat) (msgs : List ChatMessage) :
    (generateLoop env r msgs).1
        = msgs ++ (executedPairs env r msgs).flatMap roundMessages ∧
    (generateLoop env r msgs).1.length
        = msgs.length + 2 * (executedPairs env r msgs).length ∧
    (∀ t, env.round msgs = RoundOutcome.text t → 0 < r →
      (generateLoop env r msgs).1 = msgs ∧
      (generateLoop env r msgs).2 = OrchResult.done t) := by
  refine ⟨generateLoop_transcript env r msgs, ?_, ?_⟩
  · rw [generateLoop_transcript env r msgs, List.length_append,
      flatMap_roundMessages_length]
  · intro t ht hr
    cases r with
    | zero => omega
    | succ r => constructor <;> simp [generateLoop, ht]

/-- Witness for `tool_round_message_growth`: two executed tool rounds grow
an empty history to exactly four messages, and a text round appends
nothing. -/
theorem tool_round_message_growth_witness :
    (generateLoop wOrchEnv 5 []).1.length
        = ([] : List ChatMessage).length
            + 2 * (executedPairs wOrchEnv 5 ([] : List ChatMessage)).length ∧
    (generateLoop wTextEnv 1 []).1 = [] ∧
    (generateLoop wTextEnv 1 []).2 = OrchResult.done "hi" :=
  ⟨(tool_round_message_growth wOrchEnv 5 []).2.1,
   (tool_round_message_growth wTextEnv 1 []).2.2 "hi" rfl (by decide)⟩

end AiSystems

